import Mathlib

/-!
Verification of the Stale-Repository-Checker program (src/main.py).

Python strings are modelled as `List Char` (named `PyStr`); Python `int` as `Int`
(the values involved never overflow, Python ints are unbounded anyway); GitPython
library calls are modelled by a `GitRepo` record carrying exactly the observations
the program makes of a repository.  Fallible operations are modelled by a
`DirState` sum describing what opening a directory yields.
-/

abbrev PyStr := List Char

/-- Model of `os.path.join(subdir, directory)` for a relative second component on
POSIX: the two parts joined by a single separator. -/
def pyJoin (a b : PyStr) : PyStr := a ++ '/' :: b

/-- Model of Python single-character `str.replace(old, new)`: every occurrence of
the character `c` is replaced by `new` (for a one-character pattern, Python's
left-to-right non-overlapping replacement is exactly per-character replacement). -/
def pyReplaceChar (c : Char) (new : PyStr) : PyStr → PyStr
  | [] => []
  | x :: xs => if x = c then new ++ pyReplaceChar c new xs else x :: pyReplaceChar c new xs

/-- Model of Python `str * int` repetition (`indentation * quantity`). -/
def strMul (s : PyStr) (n : Nat) : PyStr := (List.replicate n s).flatten

/-- Embedding of `insert_indentation` (main.py lines 82-85):
`ident = indentation * quantity; return ident + text.replace("\n", f"\n{ident}")`. -/
def insert_indentation (text indentation : PyStr) (quantity : Nat) : PyStr :=
  let ident := strMul indentation quantity
  ident ++ pyReplaceChar '\n' ( '\n' :: ident) text

/-- Model of Python `str.split(c)` for a single-character separator: the list of
chunks between occurrences of `c`.  `splitOnChar c s` has one more element than
the number of occurrences of `c` in `s`, so its length is the line count of `s`
when `c` is the newline character. -/
def splitOnChar (c : Char) : PyStr → List PyStr
  | [] => [[]]
  | x :: xs =>
    if x = c then [] :: splitOnChar c xs
    else
      match splitOnChar c xs with
      | [] => [[x]]
      | l :: ls => (x :: l) :: ls

/-- Embedding of the depth validation in `__main__` (main.py lines 322-327).
The first component is the effective depth, the second records whether the
warning was emitted.  The Python condition `1 > args.depth > 99` is the chained
comparison `1 > depth and depth > 99`. -/
def validateDepth (depth : Int) : Int × Bool :=
  if 1 > depth ∧ depth > 99 then (1, true)
  else (max (min depth 99) 1, false)

/-- Model of a Python value that may be an int, a str or a bool, used where the
program's functions are not type-stable (`get_repo_status` / `is_repo_dirty`
return the integer `0` on one code path). -/
inductive PyVal where
  | int : Int → PyVal
  | str : PyStr → PyVal
  | bool : Bool → PyVal
deriving DecidableEq

/-- Python truthiness of a `PyVal` (`if value:`). -/
def pyTruthy : PyVal → Bool
  | .int n => n != 0
  | .str s => !s.isEmpty
  | .bool b => b

/-- Observations the program makes of a git repository through GitPython.
`indexDirty` is whether the index differs from HEAD; `modifiedFiles` is
`[item.a_path for item in repo.index.diff(None)]` (working tree vs index);
`untrackedFiles` is `repo.untracked_files`; `remotes` is `len(repo.remotes)`;
`localCommit` / `remoteCommit` are the identities of `local_branch.commit` and
`remote.refs[local_branch.name].commit`; `localReachable` / `remoteReachable`
are the sets of commits reachable from them, so that `commit.count()` is the
cardinality of the reachable set. -/
structure GitRepo where
  indexDirty : Bool
  modifiedFiles : List PyStr
  untrackedFiles : List PyStr
  remotes : Nat
  localBranchName : PyStr
  remoteBranchName : PyStr
  localCommit : Nat
  remoteCommit : Nat
  localReachable : Finset Nat
  remoteReachable : Finset Nat
deriving DecidableEq

instance : Inhabited GitRepo := ⟨⟨false, [], [], 0, [], [], 0, 0, ∅, ∅⟩⟩

/-- Model of GitPython `Repo.is_dirty()` with default arguments: true when the
index differs from HEAD or the working tree differs from the index.  Untracked
files are NOT considered, because GitPython's `untracked_files` parameter
defaults to `False` (submodule-only changes are not modelled). -/
def repoIsDirty (r : GitRepo) : Bool := r.indexDirty || !r.modifiedFiles.isEmpty

/-- Embedding of `get_repo_commit_diff` (main.py lines 103-110): returns `0` when
the repository has no remotes, otherwise `local_branch.commit.count() -
remote_branch.commit.count()`. -/
def get_repo_commit_diff (r : GitRepo) : Int :=
  if r.remotes = 0 then 0
  else (r.localReachable.card : Int) - (r.remoteReachable.card : Int)

/-- A single-quote character, used in the status message. -/
def squote : PyStr := [Char.ofNat 39]

/-- Embedding of `get_repo_status` (main.py lines 113-128).  The function is not
type-stable: on the path where `diff != 0` and the repository has no remotes it
returns the integer `0`, otherwise a string. -/
def get_repo_status (r : GitRepo) : PyVal :=
  let status : PyStr := []
  let diff := get_repo_commit_diff r
  if diff ≠ 0 then
    if r.remotes = 0 then PyVal.int 0
    else
      let adverb : PyStr := if diff > 0 then "ahead".toList else "behind".toList
      PyVal.str (status ++ squote ++ r.localBranchName ++ squote ++ " is ".toList
        ++ adverb ++ " ".toList ++ squote ++ r.remoteBranchName ++ squote
        ++ " by ".toList ++ (toString diff.natAbs).toList ++ " commits.".toList)
  else PyVal.str status

/-- Embedding of `get_repo_modified_files` (main.py lines 131-135). -/
def get_repo_modified_files (r : GitRepo) : List PyStr := r.modifiedFiles

/-- Embedding of `get_repo_untracked_files` (main.py lines 137-141). -/
def get_repo_untracked_files (r : GitRepo) : List PyStr := r.untrackedFiles

/-- Embedding of `is_repo_dirty` (main.py lines 144-155).  The function is not
type-stable: when the repository is clean and has no remotes it returns the
integer `0`, otherwise a bool. -/
def is_repo_dirty (r : GitRepo) : PyVal :=
  let is_dirty := repoIsDirty r
  if is_dirty then PyVal.bool true
  else if r.remotes = 0 then PyVal.int 0
  else PyVal.bool (r.localCommit != r.remoteCommit)

/-- What opening a directory as a repository yields: a repository, the
`InvalidGitRepositoryError` case, or any other exception raised while opening or
querying it. -/
inductive DirState where
  | repo : GitRepo → DirState
  | notARepo : DirState
  | otherError : DirState

/-- Embedding of the `RepoFiles` named tuple (main.py lines 53-55). -/
structure RepoFiles where
  modified : List PyStr
  untracked : List PyStr
deriving DecidableEq

/-- Embedding of the `StaleResult` named tuple (main.py lines 58-62).  The
Python `stale` field can hold the integer `0` coming from `is_repo_dirty`; every
use of the field in the program is a truth test, so its truthiness is stored. -/
structure StaleResult where
  directory : PyStr
  stale : Bool
  status_message : PyStr
  files : RepoFiles
deriving DecidableEq

/-- Embedding of `check_directory` (main.py lines 159-188): on a repository the
modified and untracked lists are collected and staleness is `is_repo_dirty`; on
`InvalidGitRepositoryError` or any other exception the fallback
`StaleResult(directory, False)` with default empty fields is returned. -/
def check_directory (directory : PyStr) (st : DirState) : StaleResult :=
  match st with
  | .repo r =>
      StaleResult.mk directory (pyTruthy (is_repo_dirty r)) []
        (RepoFiles.mk (get_repo_modified_files r) (get_repo_untracked_files r))
  | .notARepo => StaleResult.mk directory false [] (RepoFiles.mk [] [])
  | .otherError => StaleResult.mk directory false [] (RepoFiles.mk [] [])

/-- A directory tree: the model of the file system below the root that
`os.walk` traverses.  Each node is a directory name together with its child
directories (plain files play no role in the program). -/
inductive DirTree where
  | mk : String → List DirTree → DirTree
deriving Inhabited

/-- Name of the root directory of a tree. -/
def DirTree.name : DirTree → String
  | .mk n _ => n

/-- Child directories of the root of a tree. -/
def DirTree.children : DirTree → List DirTree
  | .mk _ cs => cs

/-- Model of top-down `os.walk(path)` on the tree `t` rooted at `path`: the
depth-first preorder list of `(dirpath, dirnames)` pairs, starting with the
root itself (`filenames` plays no role in the program and is omitted). -/
def osWalk (path : PyStr) : DirTree → List (PyStr × List PyStr)
  | .mk _ cs =>
    (path, cs.map (fun c => c.name.toList)) ::
      cs.attach.flatMap (fun c => osWalk (pyJoin path c.1.name.toList) c.1)
termination_by t => sizeOf t
decreasing_by
  have h := List.sizeOf_lt_of_mem c.2
  simp only [DirTree.mk.sizeOf_spec]
  omega

/-- Embedding of the `os.walk` loop of `main` (main.py lines 275-285): one
iteration per `os.walk` entry, checking every child of the entry (appending the
results one by one, i.e. appending the mapped list), incrementing
`walked_depth`, and breaking once `walked_depth >= max_depth`. -/
def walkLoopResults (env : PyStr → DirState) (max_depth : Int) :
    List (PyStr × List PyStr) → Int → List StaleResult → List StaleResult
  | [], _, acc => acc
  | e :: rest, walked_depth, acc =>
    let walked1 := walked_depth + 1
    let acc1 := acc ++ e.2.map (fun d =>
      check_directory (pyJoin e.1 d) (env (pyJoin e.1 d)))
    if walked1 ≥ max_depth then acc1 else walkLoopResults env max_depth rest walked1 acc1

/-- Embedding of `main` up to printing (main.py lines 260-285): the root
directory itself is checked first and that result is discarded (line 267 binds
it to `result`, which the loop body rebinds; it is never appended), then the
bounded walk collects one `StaleResult` per checked subdirectory.  `env` maps
each path to what opening it as a repository yields. -/
def mainResults (env : PyStr → DirState) (root : PyStr) (t : DirTree)
    (max_depth : Int) : List StaleResult :=
  let _rootResult := check_directory root (env root)
  walkLoopResults env max_depth (osWalk root t) 0 []

/-- All strict descendant directories of the root of `t` (rooted at path `p`)
that lie at most `d` traversal levels below it. -/
def dirsUpTo : Nat → PyStr → DirTree → List PyStr
  | 0, _, _ => []
  | d + 1, p, .mk _ cs =>
    cs.flatMap (fun c =>
      pyJoin p c.name.toList :: dirsUpTo d (pyJoin p c.name.toList) c)

/-- Embedding of the parsed command-line options used by the output path
(main.py lines 311-319). -/
structure Args where
  colorize : Bool
  status : Bool
  list_files : Bool
  indent : PyStr

/-- Constant from colorama: `Fore.GREEN`. -/
def FORE_GREEN : PyStr := "\x1b[32m".toList

/-- Constant from colorama: `Fore.LIGHTCYAN_EX`. -/
def FORE_LIGHTCYAN : PyStr := "\x1b[96m".toList

/-- Constant from colorama: `Fore.LIGHTWHITE_EX`. -/
def FORE_LIGHTWHITE : PyStr := "\x1b[97m".toList

/-- Constant from colorama: `Fore.LIGHTYELLOW_EX`. -/
def FORE_LIGHTYELLOW : PyStr := "\x1b[93m".toList

/-- Constant from colorama: `Fore.LIGHTRED_EX`. -/
def FORE_LIGHTRED : PyStr := "\x1b[91m".toList

/-- Constant from colorama: `Fore.LIGHTGREEN_EX`. -/
def FORE_LIGHTGREEN : PyStr := "\x1b[92m".toList

/-- Constant from colorama: `Style.BRIGHT`. -/
def STYLE_BRIGHT : PyStr := "\x1b[1m".toList

/-- Constant from colorama: `Style.DIM`. -/
def STYLE_DIM : PyStr := "\x1b[2m".toList

/-- Constant from colorama: `Style.RESET_ALL`. -/
def STYLE_RESET_ALL : PyStr := "\x1b[0m".toList

/-- Embedding of the color constant table (main.py lines 67-77). -/
def COLOR_REPO : PyStr := FORE_GREEN

/-- Embedding of the color constant table (main.py lines 67-77). -/
def COLOR_STATUS : PyStr := FORE_LIGHTCYAN

/-- Embedding of the color constant table (main.py lines 67-77). -/
def COLOR_FILE : PyStr := FORE_LIGHTWHITE

/-- Embedding of the color constant table (main.py lines 67-77). -/
def COLOR_UNTRACKED : PyStr := FORE_LIGHTYELLOW

/-- Embedding of the color constant table (main.py lines 67-77). -/
def COLOR_MODIFIED : PyStr := FORE_LIGHTRED

/-- Embedding of the style constant table (main.py lines 73-77). -/
def STYLE_REPO : PyStr := STYLE_BRIGHT

/-- Embedding of the style constant table (main.py lines 73-77). -/
def STYLE_STATUS : PyStr := STYLE_BRIGHT

/-- Embedding of the style constant table (main.py lines 73-77). -/
def STYLE_FILE : PyStr := STYLE_DIM

/-- Embedding of the style constant table (main.py lines 73-77). -/
def STYLE_UNTRACKED : PyStr := STYLE_DIM

/-- Embedding of the style constant table (main.py lines 73-77). -/
def STYLE_MODIFIED : PyStr := STYLE_DIM

/-- Model of Python `str.strip()` with no arguments: leading and trailing
whitespace removed. -/
def pyStrip (s : PyStr) : PyStr :=
  ((s.dropWhile Char.isWhitespace).reverse.dropWhile Char.isWhitespace).reverse

/-- Embedding of `output_repo` (main.py lines 193-202) as the list of lines it
prints. -/
def output_repo (args : Args) (res : StaleResult) (diff : Int) : List PyStr :=
  let diff_sign : PyStr := if diff > 0 then "+".toList else "-".toList
  if args.colorize then
    let color_diff := if diff > 0 then FORE_LIGHTGREEN else FORE_LIGHTRED
    [COLOR_REPO ++ STYLE_REPO ++ res.directory ++ STYLE_RESET_ALL ++ " [".toList
      ++ color_diff ++ diff_sign ++ (toString diff.natAbs).toList
      ++ STYLE_RESET_ALL ++ "]".toList ++ STYLE_RESET_ALL]
  else
    [res.directory ++ " [".toList ++ diff_sign ++ (toString diff.natAbs).toList ++ "]".toList]

/-- Embedding of `output_status` (main.py lines 204-215) as the list of lines it
prints. -/
def output_status (args : Args) (statusArg : PyStr) : List PyStr :=
  if !args.status then []
  else
    let s1 := pyStrip statusArg
    let s2 := if args.colorize then COLOR_STATUS ++ STYLE_STATUS ++ s1 ++ STYLE_RESET_ALL else s1
    [insert_indentation s2 args.indent 1]

/-- Embedding of `output_blank` (main.py lines 250-255) as the list of lines it
prints: the separator line is empty, or the ANSI reset sequence alone when
colorization is on. -/
def output_blank (args : Args) : List PyStr :=
  if args.colorize then [STYLE_RESET_ALL] else [[]]

/-- Embedding of the inner `output_files` helper (main.py lines 227-238) as the
list of lines it prints: one line per file name, indented with quantity 2. -/
def output_files_inner (args : Args) (files : List PyStr) (color style : PyStr) :
    List PyStr :=
  files.map (fun name =>
    let text := if args.colorize then color ++ style ++ name ++ STYLE_RESET_ALL else name
    insert_indentation text args.indent 2)

/-- Embedding of `output_files` (main.py lines 218-247) as the list of lines it
prints. -/
def output_files (args : Args) (files : RepoFiles) : List PyStr :=
  if !args.status then []
  else if args.list_files then
    if files.modified.isEmpty && files.untracked.isEmpty then []
    else
      (if !files.modified.isEmpty then
        insert_indentation "Modified:".toList args.indent 1 ::
          output_files_inner args files.modified COLOR_MODIFIED STYLE_MODIFIED
      else []) ++
      (if !files.untracked.isEmpty then
        output_blank args ++ (insert_indentation "Untracked:".toList args.indent 1 ::
          output_files_inner args files.untracked COLOR_UNTRACKED STYLE_UNTRACKED)
      else [])
  else []

/-- Model of the `Repo(result.directory)` constructor calls in the print loop
(main.py lines 295-296).  When the directory does not open as a repository the
Python call raises; that situation cannot arise in `mainOutput`, whose stale
results all come from `DirState.repo` under the same unchanged `env`, so the
impossible branches return the default repository. -/
def reopenRepo (env : PyStr → DirState) (d : PyStr) : GitRepo :=
  match env d with
  | .repo r => r
  | .notARepo => default
  | .otherError => default

/-- String content of a `PyVal`.  In `main` this is only applied to results of
`get_repo_status`, which is proved below to always be a string
(`get_repo_status_always_str`); on the other constructors the Python code would
raise at `status.strip()`, and the value chosen here is immaterial. -/
def pyValAsStr : PyVal → PyStr
  | .str s => s
  | .int _ => []
  | .bool _ => []

/-- Model of Python string `<`: lexicographic comparison by code point. -/
def pyStrLt : PyStr → PyStr → Bool
  | [], [] => false
  | [], _ :: _ => true
  | _ :: _, [] => false
  | a :: as, b :: bs => if a < b then true else if b < a then false else pyStrLt as bs

/-- The non-strict order induced by Python string `<`. -/
def pyStrLe (a b : PyStr) : Bool := !pyStrLt b a

/-- Model of Python `results.sort(key=lambda x: x[0])` (main.py line 290):
stable ascending sort by the directory string (component 0 of the named
tuple). -/
def pySort (l : List StaleResult) : List StaleResult :=
  l.mergeSort (fun a b => pyStrLe a.directory b.directory)

/-- Embedding of the print loop of `main` (main.py lines 291-303) as the list of
lines it prints (the `color_diff` and `diff_sign` bindings of lines 297-298 are
dead and omitted). -/
def printLoop (args : Args) (env : PyStr → DirState) : List StaleResult → List PyStr
  | [] => []
  | res :: rest =>
    if !res.stale then printLoop args env rest
    else
      let statusv := pyValAsStr (get_repo_status (reopenRepo env res.directory))
      let diff := get_repo_commit_diff (reopenRepo env res.directory)
      output_repo args res diff ++ output_status args statusv
        ++ output_files args res.files ++ output_blank args
        ++ printLoop args env rest

/-- Embedding of `main` (main.py lines 260-303) as the full list of printed
lines: collect results, drop non-stale ones, sort by directory, print one block
per remaining result. -/
def mainOutput (args : Args) (env : PyStr → DirState) (root : PyStr)
    (t : DirTree) (max_depth : Int) : List PyStr :=
  printLoop args env (pySort ((mainResults env root t max_depth).filter (fun r => r.stale)))

/-- The lines of the block printed for one stale result (main.py lines 295-302,
without the trailing separator printed by `output_blank`). -/
def renderBlock (args : Args) (env : PyStr → DirState) (res : StaleResult) : List PyStr :=
  output_repo args res (get_repo_commit_diff (reopenRepo env res.directory))
    ++ output_status args (pyValAsStr (get_repo_status (reopenRepo env res.directory)))
    ++ output_files args res.files

/-- Helper: `get_repo_status` always returns a string.  The `return 0` at
main.py line 123 is guarded by `diff != 0`, and `get_repo_commit_diff` already
returns `0` whenever the repository has no remotes, so the guard implies a
remote exists and the integer return is dead code. -/
theorem get_repo_status_always_str (r : GitRepo) :
    ∃ s, get_repo_status r = PyVal.str s := by
  unfold get_repo_status
  by_cases hr : r.remotes = 0
  · simp [get_repo_commit_diff, hr]
  · simp only [hr, if_false]
    split
    · exact ⟨_, rfl⟩
    · exact ⟨_, rfl⟩

/-- Concrete repository with one untracked file and an otherwise clean, synced
state: clean index and working tree, one remote, identical local and remote
commits. -/
def untrackedOnlyRepo : GitRepo :=
  ⟨false, [], ["new.txt".toList], 1, "main".toList, "main".toList, 5, 5,
    {0, 1, 2}, {0, 1, 2}⟩

/-- C1: refuted as stated; the code contradicts the program's own module
docstring ("uncommitted/untracked changes").  For a recognized repository whose
only deviation is one untracked file, `check_directory` reports `stale = false`
even though the file is in the untracked list, because GitPython's
`Repo.is_dirty()` is called with default arguments and those exclude untracked
files, and the remote comparison sees identical commits. -/
theorem check_directory_untracked_only_reported_clean :
    (check_directory "repo".toList (DirState.repo untrackedOnlyRepo)).stale = false ∧
      "new.txt".toList ∈
        (check_directory "repo".toList (DirState.repo untrackedOnlyRepo)).files.untracked := by
  constructor
  · decide
  · decide

/-- C2: refuted as stated; the chained comparison `1 > args.depth > 99`
(main.py line 323) is unsatisfiable, so the warning branch that would set the
depth to 1 is dead code and out-of-range depths are silently clamped by
`max(min(depth, 99), 1)` instead: depth 100 becomes 99 with no warning (and
depth 0 becomes 1 with no warning), contradicting the code's own inline comment
`(depth < 1 or depth > 99)`. -/
theorem validateDepth_out_of_range_silently_clamped :
    validateDepth 100 = (99, false) ∧ validateDepth 0 = (1, false) ∧
      validateDepth 50 = (50, false) := by
  refine ⟨?_, ?_, ?_⟩ <;> decide

/-- C8: after the validation in `__main__`, the effective depth always lies in
the interval [1, 99], for every integer depth argument. -/
theorem validateDepth_result_in_range (d : Int) :
    1 ≤ (validateDepth d).1 ∧ (validateDepth d).1 ≤ 99 := by
  unfold validateDepth
  split
  · exact ⟨le_refl 1, by norm_num⟩
  · constructor
    · simp only
      omega
    · simp only
      omega

/-- C5: for a directory whose opening or querying fails, with
`InvalidGitRepositoryError` or any other exception, `check_directory` returns a
result with `stale = false` and empty modified and untracked lists; the scan
continues because the function returns a value instead of propagating. -/
theorem check_directory_failure_clean (d : PyStr) :
    check_directory d DirState.notARepo =
        StaleResult.mk d false [] (RepoFiles.mk [] []) ∧
      check_directory d DirState.otherError =
        StaleResult.mk d false [] (RepoFiles.mk [] []) :=
  ⟨rfl, rfl⟩

/-- C6: refuted as stated; the `return 0` of `get_repo_status` (main.py line
123) is unreachable, because it is guarded by `diff != 0` while
`get_repo_commit_diff` returns `0` whenever the repository has no remotes, so
`get_repo_status` never produces the integer `0` on any repository. -/
theorem get_repo_status_int_return_unreachable :
    ¬ ∃ r : GitRepo, get_repo_status r = PyVal.int 0 := by
  rintro ⟨r, h⟩
  obtain ⟨s, hs⟩ := get_repo_status_always_str r
  rw [hs] at h
  exact PyVal.noConfusion h

/-- Concrete repository that is clean (index, working tree and no untracked
files play no role) and has no remotes. -/
def cleanNoRemoteRepo : GitRepo :=
  ⟨false, [], [], 0, "main".toList, [], 3, 3, {0}, {0}⟩

/-- C6 amended: of the two remote-check code paths that return the integer `0`
instead of a value of the declared return type, only the one in `is_repo_dirty`
is reachable (a clean repository with no remotes reaches it); the one in
`get_repo_status` is dead code. -/
theorem int_zero_return_reachability :
    is_repo_dirty cleanNoRemoteRepo = PyVal.int 0 ∧
      ∀ r : GitRepo, get_repo_status r ≠ PyVal.int 0 := by
  constructor
  · decide
  · intro r h
    obtain ⟨s, hs⟩ := get_repo_status_always_str r
    rw [hs] at h
    exact PyVal.noConfusion h

/-- C4: for a repository that has a remote and whose local branch is ahead of
(respectively behind) the remote tracking branch by `N` commits, meaning the
remote commit's reachable set is contained in the local one with `N` extra
commits (respectively the other way round), `get_repo_commit_diff` returns `+N`
(respectively `-N`). -/
theorem get_repo_commit_diff_ahead_behind (r : GitRepo) (N : Nat)
    (hrem : r.remotes ≠ 0) :
    (r.remoteReachable ⊆ r.localReachable →
        (r.localReachable \ r.remoteReachable).card = N →
        get_repo_commit_diff r = (N : Int)) ∧
      (r.localReachable ⊆ r.remoteReachable →
        (r.remoteReachable \ r.localReachable).card = N →
        get_repo_commit_diff r = -(N : Int)) := by
  unfold get_repo_commit_diff
  rw [if_neg hrem]
  constructor
  · intro hsub hcard
    have h1 := Finset.card_sdiff hsub
    have h2 := Finset.card_le_card hsub
    omega
  · intro hsub hcard
    have h1 := Finset.card_sdiff hsub
    have h2 := Finset.card_le_card hsub
    omega

/-- Concrete repository two commits ahead of its remote tracking branch. -/
def aheadRepo : GitRepo :=
  ⟨false, [], [], 1, "main".toList, "origin/main".toList, 2, 0, {0, 1, 2}, {0}⟩

/-- Concrete repository two commits behind its remote tracking branch. -/
def behindRepo : GitRepo :=
  ⟨false, [], [], 1, "main".toList, "origin/main".toList, 0, 2, {0}, {0, 1, 2}⟩

/-- Witness for C4 at two concrete repositories: two commits ahead gives `+2`,
two commits behind gives `-2`. -/
theorem get_repo_commit_diff_ahead_behind_witness :
    aheadRepo.remotes ≠ 0 ∧ get_repo_commit_diff aheadRepo = (2 : Int) ∧
      get_repo_commit_diff behindRepo = -(2 : Int) :=
  ⟨by decide,
    (get_repo_commit_diff_ahead_behind aheadRepo 2 (by decide)).1 (by decide) (by decide),
    (get_repo_commit_diff_ahead_behind behindRepo 2 (by decide)).2 (by decide) (by decide)⟩

/-- Helper: `splitOnChar` never returns the empty list. -/
theorem splitOnChar_ne_nil (c : Char) (s : PyStr) : splitOnChar c s ≠ [] := by
  cases s with
  | nil => simp [splitOnChar]
  | cons x xs =>
    unfold splitOnChar
    split
    · simp
    · split <;> simp

/-- Helper: splitting after the separator itself starts a fresh empty chunk. -/
theorem splitOnChar_cons_self (c : Char) (xs : PyStr) :
    splitOnChar c (c :: xs) = [] :: splitOnChar c xs := by
  simp [splitOnChar]

/-- Helper: splitting after a non-separator character prepends it to the first
chunk. -/
theorem splitOnChar_cons_ne (c x : Char) (xs l : PyStr) (ls : List PyStr)
    (hx : x ≠ c) (hs : splitOnChar c xs = l :: ls) :
    splitOnChar c (x :: xs) = (x :: l) :: ls := by
  simp only [splitOnChar, if_neg hx, hs]

/-- Helper: splitting an append whose first part avoids the separator prepends
that part to the first chunk of the second part. -/
theorem splitOnChar_append_of_not_mem (c : Char) (a b h : PyStr)
    (t : List PyStr) (ha : c ∉ a) (hb : splitOnChar c b = h :: t) :
    splitOnChar c (a ++ b) = (a ++ h) :: t := by
  induction a with
  | nil => simpa using hb
  | cons x a ih =>
    have hx : x ≠ c := by
      rintro rfl
      exact ha (List.mem_cons_self x a)
    have ha2 : c ∉ a := fun e => ha (List.mem_cons_of_mem x e)
    rw [List.cons_append]
    exact splitOnChar_cons_ne c x (a ++ b) (a ++ h) t hx (ih ha2)

/-- Helper: replacing the separator `c` by `c :: ident`, with `ident` free of
`c`, keeps the first chunk and prepends `ident` to every later chunk. -/
theorem splitOnChar_replaceChar (c : Char) (ident : PyStr) (hid : c ∉ ident) :
    ∀ (text h : PyStr) (t : List PyStr), splitOnChar c text = h :: t →
      splitOnChar c (pyReplaceChar c (c :: ident) text) =
        h :: t.map (fun l => ident ++ l) := by
  intro text
  induction text with
  | nil =>
    intro h t he
    simp only [splitOnChar] at he
    injection he with he1 he2
    subst he1
    subst he2
    simp [pyReplaceChar, splitOnChar]
  | cons x xs ih =>
    intro h t he
    obtain ⟨h2, t2, hxs⟩ : ∃ h2 t2, splitOnChar c xs = h2 :: t2 := by
      cases hsp : splitOnChar c xs with
      | nil => exact absurd hsp (splitOnChar_ne_nil c xs)
      | cons u v => exact ⟨u, v, rfl⟩
    have hrep := ih h2 t2 hxs
    by_cases hx : x = c
    · subst hx
      rw [splitOnChar_cons_self x xs, hxs] at he
      injection he with he1 he2
      subst he1
      subst he2
      have hstep : pyReplaceChar x (x :: ident) (x :: xs) =
          x :: (ident ++ pyReplaceChar x (x :: ident) xs) := by
        simp [pyReplaceChar]
      rw [hstep, splitOnChar_cons_self,
        splitOnChar_append_of_not_mem x ident _ _ _ hid hrep]
      simp
    · rw [splitOnChar_cons_ne c x xs h2 t2 hx hxs] at he
      injection he with he1 he2
      subst he1
      subst he2
      have hstep : pyReplaceChar c (c :: ident) (x :: xs) =
          x :: pyReplaceChar c (c :: ident) xs := by
        simp [pyReplaceChar, hx]
      rw [hstep,
        splitOnChar_cons_ne c x _ h2 (t2.map fun l => ident ++ l) hx hrep]

/-- Helper: a character absent from `s` is absent from `s` repeated `n`
times. -/
theorem not_mem_strMul (c : Char) (s : PyStr) (n : Nat) (h : c ∉ s) :
    c ∉ strMul s n := by
  intro hc
  rw [strMul, List.mem_flatten] at hc
  obtain ⟨l, hl, hcl⟩ := hc
  rw [List.mem_replicate] at hl
  exact h (hl.2 ▸ hcl)

/-- C10 amended: for every text, every indentation string in which the newline
character does not occur, and every quantity `q`, `insert_indentation` returns
the text with the indentation repeated `q` times prepended to every line,
leaving line contents and line count otherwise unchanged (lines taken as the
chunks of splitting on the newline character). -/
theorem insert_indentation_prepends_to_every_line (text indentation : PyStr)
    (q : Nat) (hnl : '\n' ∉ indentation) :
    splitOnChar '\n' (insert_indentation text indentation q) =
      (splitOnChar '\n' text).map (fun l => strMul indentation q ++ l) := by
  have hid : '\n' ∉ strMul indentation q := not_mem_strMul _ _ _ hnl
  obtain ⟨h0, t0, hsp⟩ : ∃ h0 t0, splitOnChar '\n' text = h0 :: t0 := by
    cases hsp : splitOnChar '\n' text with
    | nil => exact absurd hsp (splitOnChar_ne_nil _ text)
    | cons u v => exact ⟨u, v, rfl⟩
  have hrep := splitOnChar_replaceChar '\n' (strMul indentation q) hid text h0 t0 hsp
  show splitOnChar '\n'
      (strMul indentation q ++
        pyReplaceChar '\n' ( '\n' :: strMul indentation q) text) = _
  rw [splitOnChar_append_of_not_mem '\n' (strMul indentation q) _ _ _ hid hrep, hsp]
  simp

/-- Witness for C10 at a concrete input: two-space indentation, quantity 2,
two-line text. -/
theorem insert_indentation_prepends_to_every_line_witness :
    ('\n' ∉ "  ".toList) ∧
      splitOnChar '\n' (insert_indentation "a\nb".toList "  ".toList 2) =
        (splitOnChar '\n' "a\nb".toList).map (fun l => strMul "  ".toList 2 ++ l) :=
  ⟨by decide, insert_indentation_prepends_to_every_line "a\nb".toList "  ".toList 2 (by decide)⟩

/-- C10 counterexample: the claim as stated quantifies over every indentation
string, but an indentation string containing a newline changes the line count;
with text `"a"` and indentation `"\n"` the result has two lines instead of
one. -/
theorem insert_indentation_newline_indentation_changes_line_count :
    (splitOnChar '\n' (insert_indentation "a".toList "\n".toList 1)).length ≠
      (splitOnChar '\n' "a".toList).length := by decide

/-- Helper: unfolding equation for `osWalk` with the `attach` used for
termination removed. -/
theorem osWalk_eq (path : PyStr) (n : String) (cs : List DirTree) :
    osWalk path (.mk n cs) =
      (path, cs.map (fun c => c.name.toList)) ::
        cs.flatMap (fun c => osWalk (pyJoin path c.name.toList) c) := by
  rw [osWalk]
  simp

/-- Structural induction principle for `DirTree` with the inductive hypothesis
available for every child. -/
theorem DirTree.strongInd {motive : DirTree → Prop}
    (h : ∀ n cs, (∀ c ∈ cs, motive c) → motive (DirTree.mk n cs)) :
    ∀ t, motive t
  | .mk n cs => h n cs (fun c hc => DirTree.strongInd h c)
termination_by t => sizeOf t
decreasing_by
  have hh := List.sizeOf_lt_of_mem hc
  simp only [DirTree.mk.sizeOf_spec]
  omega

/-- Helper: unfolding equation for `dirsUpTo` at a positive depth. -/
theorem dirsUpTo_succ (d : Nat) (p : PyStr) (n : String) (cs : List DirTree) :
    dirsUpTo (d + 1) p (.mk n cs) =
      cs.flatMap (fun c =>
        pyJoin p c.name.toList :: dirsUpTo d (pyJoin p c.name.toList) c) := rfl

/-- Helper: unfolding equation for one iteration of the walk loop. -/
theorem walkLoopResults_cons (env : PyStr → DirState) (max_depth : Int)
    (e : PyStr × List PyStr) (rest : List (PyStr × List PyStr))
    (walked_depth : Int) (acc : List StaleResult) :
    walkLoopResults env max_depth (e :: rest) walked_depth acc =
      if walked_depth + 1 ≥ max_depth
      then acc ++ e.2.map (fun d => check_directory (pyJoin e.1 d) (env (pyJoin e.1 d)))
      else walkLoopResults env max_depth rest (walked_depth + 1)
        (acc ++ e.2.map (fun d => check_directory (pyJoin e.1 d) (env (pyJoin e.1 d)))) :=
  rfl

/-- Helper: as long as the budget is not yet exhausted, the walk loop processes
exactly the first `max_depth - walked_depth` entries, appending the checks of
each entry's children. -/
theorem walkLoopResults_take (env : PyStr → DirState) (max_depth : Int) :
    ∀ (L : List (PyStr × List PyStr)) (walked_depth : Int) (acc : List StaleResult),
      walked_depth + 1 ≤ max_depth →
      walkLoopResults env max_depth L walked_depth acc =
        acc ++ (L.take (max_depth - walked_depth).toNat).flatMap
          (fun e => e.2.map (fun d => check_directory (pyJoin e.1 d) (env (pyJoin e.1 d)))) := by
  intro L
  induction L with
  | nil =>
    intro walked_depth acc _
    simp [walkLoopResults]
  | cons e rest ih =>
    intro walked_depth acc hle
    rw [walkLoopResults_cons]
    by_cases hbreak : walked_depth + 1 ≥ max_depth
    · rw [if_pos hbreak]
      have h1 : (max_depth - walked_depth).toNat = 1 := by omega
      rw [h1]
      simp
    · rw [if_neg hbreak]
      rw [ih (walked_depth + 1) _ (by omega)]
      have h3 : (max_depth - walked_depth).toNat =
          (max_depth - (walked_depth + 1)).toNat + 1 := by omega
      rw [h3, List.take_succ_cons]
      simp

/-- Helper: the directory of a check result is always the checked path. -/
theorem check_directory_directory (p : PyStr) (st : DirState) :
    (check_directory p st).directory = p := by
  cases st <;> rfl

/-- Helper: the checked paths of `mainResults` are exactly the children of the
first `max_depth` entries of the walk, joined to their parent paths. -/
theorem mainResults_directories (env : PyStr → DirState) (root : PyStr)
    (t : DirTree) (max_depth : Int) (hd : 1 ≤ max_depth) :
    (mainResults env root t max_depth).map (fun r => r.directory) =
      ((osWalk root t).take max_depth.toNat).flatMap
        (fun e => e.2.map (fun d => pyJoin e.1 d)) := by
  unfold mainResults
  rw [walkLoopResults_take env max_depth _ 0 [] (by omega)]
  simp only [List.nil_append, sub_zero]
  rw [List.map_flatMap]
  simp [List.map_map, Function.comp_def, check_directory_directory]

/-- Helper, list form of the depth-safety argument: a checked path produced
from the first `k` entries of the concatenated walks of the children `cs`
(each rooted one level below `p`), with `k ≤ d`, lies within the blocks of
depth `d` below the children. -/
theorem walk_take_safety_list (p : PyStr) (d : Nat) :
    ∀ (cs : List DirTree),
      (∀ c ∈ cs, ∀ (q : PyStr) (d2 k2 : Nat), k2 ≤ d2 →
        ∀ x ∈ ((osWalk q c).take k2).flatMap
            (fun e => e.2.map (fun dn => pyJoin e.1 dn)),
          x ∈ dirsUpTo d2 q c) →
      ∀ k, k ≤ d →
      ∀ x ∈ ((cs.flatMap (fun c => osWalk (pyJoin p c.name.toList) c)).take k).flatMap
          (fun e => e.2.map (fun dn => pyJoin e.1 dn)),
        x ∈ cs.flatMap (fun c =>
          pyJoin p c.name.toList :: dirsUpTo d (pyJoin p c.name.toList) c) := by
  intro cs
  induction cs with
  | nil =>
    intro _ k _ x hx
    simp at hx
  | cons c rest ih =>
    intro ihcs k hk x hx
    rw [List.flatMap_cons, List.take_append_eq_append_take, List.flatMap_append] at hx
    rcases List.mem_append.mp hx with hx1 | hx2
    · have h1 := ihcs c (List.mem_cons_self c rest) (pyJoin p c.name.toList) d k hk x hx1
      rw [List.flatMap_cons]
      exact List.mem_append.mpr (Or.inl (List.mem_cons_of_mem _ h1))
    · have h2 := ih (fun c2 hc2 => ihcs c2 (List.mem_cons_of_mem c hc2))
        (k - (osWalk (pyJoin p c.name.toList) c).length) (by omega) x hx2
      rw [List.flatMap_cons]
      exact List.mem_append.mpr (Or.inr h2)

/-- Helper: every directory checked within a walk budget of `k ≤ d` iterations
lies at most `d` traversal levels below the walk's root. -/
theorem walk_take_safety :
    ∀ (t : DirTree) (p : PyStr) (d k : Nat), k ≤ d →
      ∀ x ∈ ((osWalk p t).take k).flatMap
          (fun e => e.2.map (fun dn => pyJoin e.1 dn)),
        x ∈ dirsUpTo d p t := by
  intro t
  induction t using DirTree.strongInd with
  | _ n cs ih =>
    intro p d k hk x hx
    cases k with
    | zero => simp at hx
    | succ k2 =>
      obtain ⟨d2, rfl⟩ : ∃ d2, d = d2 + 1 := ⟨d - 1, by omega⟩
      rw [osWalk_eq, List.take_succ_cons, List.flatMap_cons] at hx
      rcases List.mem_append.mp hx with hx1 | hx2
      · simp only [List.mem_map] at hx1
        obtain ⟨dn, hdn, rfl⟩ := hx1
        obtain ⟨c, hc, rfl⟩ := hdn
        rw [dirsUpTo_succ]
        exact List.mem_flatMap.mpr ⟨c, hc, List.mem_cons_self _ _⟩
      · rw [dirsUpTo_succ]
        exact walk_take_safety_list p d2 cs ih k2 (by omega) x hx2

/-- C3 amended: the walk's counter counts `os.walk` iterations, not traversal
levels.  For every environment, root, tree and depth `d ≥ 1`, the set of
checked directories is exactly the children of the first `d` entries of the
top-down walk order (so a subtree visited early can exhaust the budget and
directories within `d` levels of the root may never be checked), and every
checked directory does lie within `d` traversal levels below the root, so no
directory beyond the depth bound is ever checked. -/
theorem walk_checks_children_of_first_entries (env : PyStr → DirState)
    (root : PyStr) (t : DirTree) (max_depth : Int) (hd : 1 ≤ max_depth) :
    (mainResults env root t max_depth).map (fun r => r.directory) =
        ((osWalk root t).take max_depth.toNat).flatMap
          (fun e => e.2.map (fun d => pyJoin e.1 d)) ∧
      ∀ p ∈ (mainResults env root t max_depth).map (fun r => r.directory),
        p ∈ dirsUpTo max_depth.toNat root t := by
  have hmain := mainResults_directories env root t max_depth hd
  refine ⟨hmain, ?_⟩
  intro p hp
  rw [hmain] at hp
  exact walk_take_safety t root max_depth.toNat max_depth.toNat le_rfl p hp

/-- Concrete tree for the depth bound: a root with children `A` (containing
`X`) and `B` (containing `Y`). -/
def treeC3 : DirTree := .mk "root" [.mk "A" [.mk "X" []], .mk "B" [.mk "Y" []]]

/-- Witness for C3 (amended) at the concrete tree `treeC3` with depth 2. -/
theorem walk_checks_children_of_first_entries_witness :
    (1 : Int) ≤ 2 ∧
      ((mainResults (fun _ => DirState.notARepo) "root".toList treeC3 2).map
            (fun r => r.directory) =
          ((osWalk "root".toList treeC3).take (2 : Int).toNat).flatMap
            (fun e => e.2.map (fun d => pyJoin e.1 d)) ∧
        ∀ p ∈ (mainResults (fun _ => DirState.notARepo) "root".toList treeC3 2).map
            (fun r => r.directory),
          p ∈ dirsUpTo (2 : Int).toNat "root".toList treeC3) :=
  ⟨by norm_num,
    walk_checks_children_of_first_entries (fun _ => DirState.notARepo)
      "root".toList treeC3 2 (by norm_num)⟩

/-- C3 counterexample: with depth 2 on `treeC3`, the walk stops after two
`os.walk` iterations (root and then `root/A`), so it checks `root/A`, `root/B`
and `root/A/X` but never `root/B/Y`, a directory that lies within two traversal
levels of the root; the walk therefore does not enumerate exactly the
subdirectories within the configured depth. -/
theorem walk_depth2_misses_directory_within_depth :
    "root/B/Y".toList ∈ dirsUpTo 2 "root".toList treeC3 ∧
      "root/B/Y".toList ∉
        (mainResults (fun _ => DirState.notARepo) "root".toList treeC3 2).map
          (fun r => r.directory) := by
  constructor
  · decide
  · have hdirs : (mainResults (fun _ => DirState.notARepo) "root".toList treeC3 2).map
        (fun r => r.directory) =
        ["root/A".toList, "root/B".toList, "root/A/X".toList] := by
      rw [mainResults_directories _ _ _ _ (by norm_num)]
      simp [treeC3, osWalk_eq, DirTree.name, pyJoin]
    rw [hdirs]
    decide

/-- Helper: every result produced by the walk loop was already in the
accumulator or checks the join of some walk entry's path with one of its child
names. -/
theorem walkLoopResults_mem (env : PyStr → DirState) (max_depth : Int) :
    ∀ (L : List (PyStr × List PyStr)) (walked_depth : Int) (acc : List StaleResult)
      (res : StaleResult), res ∈ walkLoopResults env max_depth L walked_depth acc →
      res ∈ acc ∨ ∃ e ∈ L, ∃ d ∈ e.2,
        res = check_directory (pyJoin e.1 d) (env (pyJoin e.1 d)) := by
  intro L
  induction L with
  | nil =>
    intro walked_depth acc res h
    exact Or.inl h
  | cons e rest ih =>
    intro walked_depth acc res h
    rw [walkLoopResults_cons] at h
    by_cases hb : walked_depth + 1 ≥ max_depth
    · rw [if_pos hb] at h
      rcases List.mem_append.mp h with h1 | h2
      · exact Or.inl h1
      · obtain ⟨d, hd, rfl⟩ := List.mem_map.mp h2
        exact Or.inr ⟨e, List.mem_cons_self _ _, d, hd, rfl⟩
    · rw [if_neg hb] at h
      rcases ih _ _ res h with h1 | h2
      · rcases List.mem_append.mp h1 with h3 | h4
        · exact Or.inl h3
        · obtain ⟨d, hd, rfl⟩ := List.mem_map.mp h4
          exact Or.inr ⟨e, List.mem_cons_self _ _, d, hd, rfl⟩
      · obtain ⟨e2, he2, d, hd, hres⟩ := h2
        exact Or.inr ⟨e2, List.mem_cons_of_mem _ he2, d, hd, hres⟩

/-- Helper: every entry of the walk of `t` rooted at `path` has a path at least
as long as `path`. -/
theorem osWalk_path_length (t : DirTree) :
    ∀ (path : PyStr), ∀ e ∈ osWalk path t, path.length ≤ e.1.length := by
  induction t using DirTree.strongInd with
  | _ n cs ih =>
    intro path e he
    rw [osWalk_eq] at he
    rcases List.mem_cons.mp he with rfl | h2
    · exact le_rfl
    · obtain ⟨c, hc, hec⟩ := List.mem_flatMap.mp h2
      have hlen := ih c hc (pyJoin path c.name.toList) e hec
      simp only [pyJoin, List.length_append, List.length_cons] at hlen
      omega

/-- Helper: every collected result's directory strictly extends the root path,
so it differs from the root. -/
theorem mainResults_directory_ne_root (env : PyStr → DirState) (root : PyStr)
    (t : DirTree) (max_depth : Int) (res : StaleResult)
    (hres : res ∈ mainResults env root t max_depth) : res.directory ≠ root := by
  unfold mainResults at hres
  rcases walkLoopResults_mem env max_depth _ _ _ res hres with h1 | h2
  · simp at h1
  · obtain ⟨e, he, d, _, rfl⟩ := h2
    have h3 := osWalk_path_length t root e he
    rw [check_directory_directory]
    intro heq
    have h4 : (pyJoin e.1 d).length = root.length := by rw [heq]
    simp only [pyJoin, List.length_append, List.length_cons] at h4
    omega

/-- C9: the check of the root directory performed before the walk is discarded:
no result that `main` collects has the root as its directory, for every
environment, root path, tree and depth, so the root never appears in the
printed output even when it is itself a stale repository (the print loop ranges
over a sublist of these results). -/
theorem root_never_reported (env : PyStr → DirState) (root : PyStr)
    (t : DirTree) (max_depth : Int) :
    (mainResults env root t max_depth).all (fun res => res.directory != root) := by
  rw [List.all_eq_true]
  intro res hres
  rw [bne_iff_ne]
  exact mainResults_directory_ne_root env root t max_depth res hres

/-- Helper: Python string `<` is asymmetric. -/
theorem pyStrLt_asymm : ∀ (a b : PyStr), pyStrLt a b = true → pyStrLt b a = false := by
  intro a
  induction a with
  | nil =>
    intro b h
    cases b with
    | nil => simp [pyStrLt] at h
    | cons y ys => simp [pyStrLt]
  | cons x xs ih =>
    intro b h
    cases b with
    | nil => simp [pyStrLt] at h
    | cons y ys =>
      simp only [pyStrLt] at h ⊢
      by_cases hxy : x < y
      · rw [if_neg (lt_asymm hxy), if_pos hxy]
      · rw [if_neg hxy] at h
        by_cases hyx : y < x
        · rw [if_pos hyx] at h
          exact absurd h (by simp)
        · rw [if_neg hyx] at h
          rw [if_neg hyx, if_neg hxy]
          exact ih ys h

/-- Helper: two Python strings neither of which is `<` the other are equal. -/
theorem pyStrLt_eq_of_not_lt : ∀ (a b : PyStr), pyStrLt a b = false →
    pyStrLt b a = false → a = b := by
  intro a
  induction a with
  | nil =>
    intro b h1 _
    cases b with
    | nil => rfl
    | cons y ys => simp [pyStrLt] at h1
  | cons x xs ih =>
    intro b h1 h2
    cases b with
    | nil => simp [pyStrLt] at h2
    | cons y ys =>
      simp only [pyStrLt] at h1 h2
      by_cases hxy : x < y
      · rw [if_pos hxy] at h1
        exact absurd h1 (by simp)
      · by_cases hyx : y < x
        · rw [if_pos hyx] at h2
          exact absurd h2 (by simp)
        · rw [if_neg hxy, if_neg hyx] at h1
          rw [if_neg hyx, if_neg hxy] at h2
          have hchar : x = y := le_antisymm (not_lt.mp hyx) (not_lt.mp hxy)
          rw [hchar, ih ys h1 h2]

/-- Helper: Python string `<` is transitive. -/
theorem pyStrLt_trans : ∀ (a b c : PyStr), pyStrLt a b = true →
    pyStrLt b c = true → pyStrLt a c = true := by
  intro a
  induction a with
  | nil =>
    intro b c h1 h2
    cases b with
    | nil => simp [pyStrLt] at h1
    | cons y ys =>
      cases c with
      | nil => simp [pyStrLt] at h2
      | cons z zs => simp [pyStrLt]
  | cons x xs ih =>
    intro b c h1 h2
    cases b with
    | nil => simp [pyStrLt] at h1
    | cons y ys =>
      cases c with
      | nil => simp [pyStrLt] at h2
      | cons z zs =>
        simp only [pyStrLt] at h1 h2 ⊢
        by_cases hxy : x < y
        · by_cases hyz : y < z
          · rw [if_pos (lt_trans hxy hyz)]
          · by_cases hzy : z < y
            · rw [if_neg hyz, if_pos hzy] at h2
              exact absurd h2 (by simp)
            · have hyzeq : y = z := le_antisymm (not_lt.mp hzy) (not_lt.mp hyz)
              rw [if_pos (hyzeq ▸ hxy)]
        · by_cases hyx : y < x
          · rw [if_neg hxy, if_pos hyx] at h1
            exact absurd h1 (by simp)
          · have hxyeq : x = y := le_antisymm (not_lt.mp hyx) (not_lt.mp hxy)
            rw [if_neg hxy, if_neg hyx] at h1
            by_cases hyz : y < z
            · rw [if_pos (hxyeq ▸ hyz)]
            · by_cases hzy : z < y
              · rw [if_neg hyz, if_pos hzy] at h2
                exact absurd h2 (by simp)
              · rw [if_neg hyz, if_neg hzy] at h2
                rw [hxyeq, if_neg hyz, if_neg hzy]
                exact ih ys zs h1 h2

/-- Helper: the sort order on results is total. -/
theorem resultLe_total (a b : StaleResult) :
    (pyStrLe a.directory b.directory || pyStrLe b.directory a.directory) = true := by
  unfold pyStrLe
  cases h1 : pyStrLt b.directory a.directory
  · simp
  · have h2 := pyStrLt_asymm _ _ h1
    simp [h2]

/-- Helper: the sort order on results is transitive. -/
theorem resultLe_trans (a b c : StaleResult)
    (h1 : pyStrLe a.directory b.directory = true)
    (h2 : pyStrLe b.directory c.directory = true) :
    pyStrLe a.directory c.directory = true := by
  unfold pyStrLe at h1 h2 ⊢
  have h1f : pyStrLt b.directory a.directory = false := by
    cases hx : pyStrLt b.directory a.directory
    · rfl
    · rw [hx] at h1
      exact absurd h1 (by simp)
  have h2f : pyStrLt c.directory b.directory = false := by
    cases hx : pyStrLt c.directory b.directory
    · rfl
    · rw [hx] at h2
      exact absurd h2 (by simp)
  have hgoal : pyStrLt c.directory a.directory = false := by
    cases hx : pyStrLt c.directory a.directory
    · rfl
    · by_cases hab : pyStrLt a.directory b.directory = true
      · have := pyStrLt_trans _ _ _ hx hab
        rw [this] at h2f
        exact absurd h2f (by simp)
      · have habf : pyStrLt a.directory b.directory = false := by
          cases hy : pyStrLt a.directory b.directory
          · rfl
          · exact absurd hy hab
        have heq : a.directory = b.directory := pyStrLt_eq_of_not_lt _ _ habf h1f
        rw [heq] at hx
        rw [hx] at h2f
        exact absurd h2f (by simp)
  rw [hgoal]
  rfl

/-- Helper: on a list of results that are all stale, the print loop emits
exactly one block followed by one separator line per result, in list order. -/
theorem printLoop_all_stale (args : Args) (env : PyStr → DirState) :
    ∀ (l : List StaleResult), (∀ res ∈ l, res.stale = true) →
      printLoop args env l =
        l.flatMap (fun res => renderBlock args env res ++ output_blank args) := by
  intro l
  induction l with
  | nil =>
    intro _
    rfl
  | cons res rest ih =>
    intro hall
    have hres : res.stale = true := hall res (List.mem_cons_self _ _)
    have hrest := ih (fun r hr => hall r (List.mem_cons_of_mem _ hr))
    rw [List.flatMap_cons, ← hrest]
    show (if !res.stale then printLoop args env rest
      else output_repo args res (get_repo_commit_diff (reopenRepo env res.directory))
        ++ output_status args (pyValAsStr (get_repo_status (reopenRepo env res.directory)))
        ++ output_files args res.files ++ output_blank args
        ++ printLoop args env rest) = _
    rw [hres]
    simp [renderBlock]

/-- C7: the printed output of `main` consists of exactly one block per stale
result and no block for a non-stale result: it equals the concatenation, over
the sorted stale results, of that result's block followed by the separator line
of `output_blank` (the empty line, or the ANSI reset sequence alone when
colorization is on); the sorted list is a permutation of the stale results and
its directories appear in ascending lexicographic order. -/
theorem main_output_sorted_blocks (args : Args) (env : PyStr → DirState)
    (root : PyStr) (t : DirTree) (max_depth : Int) :
    mainOutput args env root t max_depth =
        (pySort ((mainResults env root t max_depth).filter (fun r => r.stale))).flatMap
          (fun res => renderBlock args env res ++ output_blank args) ∧
      (pySort ((mainResults env root t max_depth).filter (fun r => r.stale))).Perm
        ((mainResults env root t max_depth).filter (fun r => r.stale)) ∧
      List.Pairwise (fun a b => pyStrLe a.directory b.directory = true)
        (pySort ((mainResults env root t max_depth).filter (fun r => r.stale))) := by
  refine ⟨?_, ?_, ?_⟩
  · unfold mainOutput
    apply printLoop_all_stale
    intro res hres
    have hperm : List.Perm
        (pySort ((mainResults env root t max_depth).filter (fun r => r.stale)))
        ((mainResults env root t max_depth).filter (fun r => r.stale)) :=
      List.mergeSort_perm _ _
    have hmem := hperm.mem_iff.mp hres
    exact (List.mem_filter.mp hmem).2
  · unfold pySort
    exact List.mergeSort_perm _ _
  · unfold pySort
    exact List.sorted_mergeSort
      (fun a b c => resultLe_trans a b c)
      (fun a b => resultLe_total a b)
      ((mainResults env root t max_depth).filter (fun r => r.stale))
